import Mathlib

/-!
Verification development for the `uplnk` client-side upload library.

The definitions below are a shallow embedding of the TypeScript sources:

* `@uplnk/types` (`packages/types/src/index.ts`): `UploadError`, `RetryOptions`.
* `@uplnk/core` (`index.ts`, appended to `validators.test.ts` in the snapshot):
  the single-attempt executor `doUpload` (modelled as an event-driven state
  machine `doUploadStart`/`doUploadStep`/`doUploadRun`) and the retry loop in
  `uplnk` (modelled as `retryLoop`/`uplnkRun`).
* `@uplnk/core/retry-strategies`: `calculateBackoffDelay`.
* `@uplnk/core/validators`: `validateSize`, `validateType`, `validateFile`.
* `@uplnk/core/batch`: `batchUpload` (modelled as `batchLoop`/`batchRun`) and
  `createUploadQueue` (modelled as `qStep`/`qRun`).

Machine integers are modelled as `Nat`; JavaScript floating-point quantities
that feed divisions (times, speeds, backoff delays) are modelled as `Rat`.
All definitions are executable so that concrete runs can be settled by
`decide`/`rfl`.
-/

/-- `UploadError` from `@uplnk/types`: the closed set of failure variants
`abort | timeout | network | http{status, response?}`. -/
inductive UploadError where
  | abort
  | timeout
  | network
  | http (status : Nat) (response : Option String)
deriving DecidableEq, Repr

/-- The `delayMs` field of `RetryOptions`: `number | ((attempt: number) => number)`. -/
inductive DelayMs where
  | fixed (ms : Nat)
  | fn (f : Nat → Nat)

/-- `RetryOptions` from `@uplnk/types`: attempt cap (including the first
attempt), delay configuration, and the retry predicate. -/
structure RetryOptions where
  attempts : Nat
  delayMs : DelayMs
  shouldRetry : UploadError → Nat → Bool

/-- The number of milliseconds the statement `await new Promise((r) =>
setTimeout(r, delayMs))` in `uplnk` actually waits.  `delayMs` is passed to
`setTimeout` as-is.  When it is a number, the timer waits that long.  When it
is a function, the HTML timer API converts the second argument with
`ToNumber`, which yields `NaN` for a function object; WebIDL conversion of
`NaN` to the IDL `long` timeout gives `0`, so the timer fires immediately and
the delay function is never invoked. -/
def setTimeoutDelay : DelayMs → Nat
  | .fixed ms => ms
  | .fn _ => 0

/-- Observable trace of one `uplnk(options)` call with a retry policy:
the final settlement (`none` = resolved), how many `doUpload` attempts ran,
the effective wait inserted before each re-attempt, and every invocation of
the `shouldRetry` predicate with its arguments. -/
structure RetryTrace where
  result : Option UploadError
  attemptsMade : Nat
  waits : List Nat
  shouldRetryCalls : List (UploadError × Nat)
deriving DecidableEq, Repr

/-- The body of the `for (let attempt = 0; attempt < attempts; attempt++)`
loop of `uplnk`.  `attemptOutcome i` is how the `i`-th `doUpload` call settles
(`none` = resolves).  `attempt` is the current loop index and `remaining` the
number of loop iterations left (`attempts - attempt`), so `remaining = 1`
exactly when `attempt === attempts - 1`.  On failure, the loop re-throws when
the current attempt is the last one — short-circuiting, so `shouldRetry` is
not consulted there — or when `shouldRetry` returns false; otherwise it waits
`setTimeoutDelay delayMs` and proceeds. -/
def retryLoop (delay : DelayMs) (shouldRetry : UploadError → Nat → Bool)
    (attemptOutcome : Nat → Option UploadError) :
    Nat → Nat → RetryTrace
  | _, 0 =>
    { result := none, attemptsMade := 0, waits := [], shouldRetryCalls := [] }
  | attempt, remaining + 1 =>
    match attemptOutcome attempt with
    | none =>
      { result := none, attemptsMade := 1, waits := [], shouldRetryCalls := [] }
    | some err =>
      if remaining = 0 then
        { result := some err, attemptsMade := 1, waits := [], shouldRetryCalls := [] }
      else if ¬ shouldRetry err attempt then
        { result := some err, attemptsMade := 1, waits := [],
          shouldRetryCalls := [(err, attempt)] }
      else
        let t := retryLoop delay shouldRetry attemptOutcome (attempt + 1) remaining
        { result := t.result, attemptsMade := t.attemptsMade + 1,
          waits := setTimeoutDelay delay :: t.waits,
          shouldRetryCalls := (err, attempt) :: t.shouldRetryCalls }

/-- `uplnk(options)` when `options.retry` is present: run the retry loop from
attempt `0` with `attempts` iterations left. -/
def uplnkRun (retry : RetryOptions) (attemptOutcome : Nat → Option UploadError) :
    RetryTrace :=
  retryLoop retry.delayMs retry.shouldRetry attemptOutcome 0 retry.attempts

/-- A function-valued delay configuration whose value is 1000 ms at every
attempt index, as produced e.g. by `customRetry` with
`getDelay: () => 1000`. -/
def delayFnThousand : DelayMs := .fn (fun _ => 1000)

/-- `UploadProgress` from `@uplnk/types`: loaded bytes, optional total,
optional percent/speed/eta.  Quantities are `Rat` because the source divides
by elapsed seconds. -/
structure UploadProgress where
  loaded : Rat
  total : Option Rat
  percent : Option Rat
  speed : Option Rat
  eta : Option Rat
deriving DecidableEq, Repr

/-- `DEFAULT_THROTTLE_MS` from `@uplnk/core`. -/
def DEFAULT_THROTTLE_MS : Rat := 100

/-- `createProgress(loaded, total?)` from `@uplnk/core`: `totalNum = total ??
0`; percent is `min(100, loaded/totalNum*100)` when `totalNum > 0`, else
undefined; the stored total is `totalNum || undefined` (so `0` becomes
undefined).  `speed`/`eta` start undefined. -/
def createProgress (loaded : Rat) (total : Option Rat) : UploadProgress :=
  let totalNum := total.getD 0
  { loaded := loaded,
    total := if totalNum = 0 then none else some totalNum,
    percent := if 0 < totalNum then some (min 100 (loaded / totalNum * 100)) else none,
    speed := none, eta := none }

/-- One callback invocation observed by the caller of `doUpload`:
`onStart`, `onProgress`, `onResponse`, or `onError`. -/
inductive Callback where
  | onStartCb
  | onProgressCb (p : UploadProgress)
  | onResponseCb
  | onErrorCb (e : UploadError)
deriving DecidableEq, Repr

/-- How the promise returned by `doUpload` settles: resolved, rejected with a
classified `UploadError`, or rejected by the synchronous
`throw new Error("uplnk: url is required")`. -/
inductive SettleVal where
  | ok
  | err (e : UploadError)
  | thrown
deriving DecidableEq, Repr

/-- The slice of `UplnkOptions` that drives `doUpload`'s control flow.
`hasSignal`/`signalAborted` model `signal?` presence and its initial aborted
state; `hasOnProgress` models presence of the `onProgress` callback (the
source guards `emitOnStart && opts.onProgress` on it); `throttleMs`,
`emitOnStart`, `emitOnEnd` are the resolved progress options (defaults
100/true/true).  `method`, `headers` and `withCredentials` are omitted: they
do not influence any verified behaviour. -/
structure XOpts where
  url : String
  fileSize : Rat
  hasSignal : Bool
  signalAborted : Bool
  timeoutMs : Option Rat
  hasOnProgress : Bool
  throttleMs : Rat
  emitOnStart : Bool
  emitOnEnd : Bool
deriving DecidableEq, Repr

/-- State of one `doUpload` promise and its XMLHttpRequest.  `settled` keeps
the value of the first `resolve`/`reject` (later calls are ignored by the
Promise, but `finish` still invokes the corresponding callback, which is why
`callbacks` can keep growing after settlement).  `signalListenerOn` tracks the
`"abort"` listener added to the signal, `timerArmed` the `setTimeout` timer,
`abortCalled` whether `xhr.abort()` was ever invoked, `xhrDone` whether the
request reached its final XHR state (load/error/abort), and `lastEmit` the
`lastEmitTime` throttle cell (source initialises it to 0; event timestamps are
measured on the same clock with `startTime = 0`). -/
structure XState where
  callbacks : List Callback
  settled : Option SettleVal
  signalListenerOn : Bool
  signalFired : Bool
  timerArmed : Bool
  opened : Bool
  sentFlag : Bool
  xhrDone : Bool
  abortCalled : Bool
  lastEmit : Rat
deriving DecidableEq, Repr

/-- Environment events delivered to an in-flight `doUpload`: an upload
`progress` event (with its `Date.now()` timestamp and `lengthComputable`
payload), the XHR `load`/`error` events, the cancellation signal firing, and
the armed timeout timer firing. -/
inductive XEvent where
  | progressEvt (now loaded total : Rat) (lengthComputable : Bool)
  | loadEvt (status : Nat) (responseText : String)
  | errorEvt
  | signalFire
  | timerFire
deriving DecidableEq, Repr

/-- `finish(err)` from `doUpload`: invoke `onError` (failure) or `onResponse`
(success), then `reject`/`resolve` — only the first settlement sticks, but
the callback is invoked unconditionally. -/
def finishWith (st : XState) (e : Option UploadError) : XState :=
  { st with
    callbacks := st.callbacks ++
      [match e with
       | some err => .onErrorCb err
       | none => .onResponseCb],
    settled := some (st.settled.getD (match e with | some err => .err err | none => .ok)) }

/-- `emitProgress(opts, progress, lastEmitTime, throttleMs)`: skip when the
event arrives within the throttle window and the percent is not 100;
otherwise record the emission time and invoke `onProgress` if supplied. -/
def emitProgressStep (o : XOpts) (st : XState) (now : Rat) (p : UploadProgress) :
    XState :=
  if now - st.lastEmit < o.throttleMs ∧ p.percent ≠ some 100 then st
  else
    { st with
      lastEmit := now
      callbacks := if o.hasOnProgress then st.callbacks ++ [.onProgressCb p]
                   else st.callbacks }

/-- `xhr.abort()`: per the WHATWG XMLHttpRequest specification, aborting a
request whose `send()` flag is set and that is not yet done runs the request
error steps synchronously, which fire the `"abort"` event at the XHR before
`abort()` returns.  The registered abort listener removes the signal
listener, clears the timer, and calls `handleError({type:"abort"})`. -/
def xhrAbort (st : XState) : XState :=
  let st := { st with abortCalled := true }
  if st.sentFlag ∧ ¬ st.xhrDone then
    let st := { st with xhrDone := true, signalListenerOn := false, timerArmed := false }
    finishWith st (some .abort)
  else st

/-- The body of the upload `"progress"` listener: build the snapshot (with
speed and eta when the length is computable and time has elapsed), then run
the throttled emit. -/
def progressListener (o : XOpts) (st : XState) (now loaded total : Rat)
    (lengthComputable : Bool) : XState :=
  if lengthComputable then
    let p0 := createProgress loaded (some total)
    let elapsed := (now - 0) / 1000
    let p1 := if 0 < elapsed then { p0 with speed := some (loaded / elapsed) } else p0
    let p2 :=
      match p1.speed, p1.total with
      | some sp, some tot =>
        if sp ≠ 0 ∧ p1.loaded < tot then
          { p1 with eta := some ((tot - p1.loaded) / sp) }
        else p1
      | _, _ => p1
    emitProgressStep o st now p2
  else
    emitProgressStep o st now (createProgress loaded none)

/-- The synchronous start of `doUpload(opts)`: the `url` precondition check,
the early return when the signal is already aborted (before any listener,
timer, `open`, `onStart`, progress emission, or `send`), and otherwise the
full setup sequence ending in `xhr.send(body)` — registering the signal
listener, arming the timer when `timeoutMs` is a positive number, calling
`xhr.open`, `onStart`, and the optional synthetic 0% progress emission. -/
def doUploadStart (o : XOpts) : XState :=
  let empty : XState :=
    { callbacks := [], settled := none, signalListenerOn := false,
      signalFired := false, timerArmed := false, opened := false,
      sentFlag := false, xhrDone := false, abortCalled := false, lastEmit := 0 }
  if o.url = "" then
    { empty with settled := some .thrown }
  else if o.hasSignal ∧ o.signalAborted then
    { empty with
      callbacks := [.onErrorCb .abort]
      settled := some (.err .abort)
      signalFired := true }
  else
    { empty with
      signalListenerOn := o.hasSignal,
      timerArmed := (match o.timeoutMs with
                     | some t => if 0 < t then true else false
                     | none => false),
      opened := true,
      sentFlag := true,
      callbacks :=
        [.onStartCb] ++
        (if o.emitOnStart ∧ o.hasOnProgress then
           [.onProgressCb (createProgress 0 (some o.fileSize))]
         else []) }

/-- One environment event delivered to the `doUpload` state machine.  The
signal's abort handler only calls `handleError({type:"abort"})` — it neither
aborts the XHR nor clears the timer nor removes any listener.  The timer
handler calls `xhr.abort()` (which synchronously fires the XHR abort event)
and then `handleError({type:"timeout"})`.  The `load` listener removes the
signal listener, clears the timer, emits the synthetic 100% event on 2xx, and
settles; `error` settles with a network failure. -/
def doUploadStep (o : XOpts) (st : XState) : XEvent → XState
  | .progressEvt now loaded total lengthComputable =>
    if st.sentFlag ∧ ¬ st.xhrDone then
      progressListener o st now loaded total lengthComputable
    else st
  | .loadEvt status responseText =>
    if st.sentFlag ∧ ¬ st.xhrDone then
      let st := { st with xhrDone := true, signalListenerOn := false, timerArmed := false }
      if 200 ≤ status ∧ status < 300 then
        let st :=
          if o.emitOnEnd ∧ o.hasOnProgress then
            { st with callbacks :=
                st.callbacks ++ [.onProgressCb (createProgress o.fileSize (some o.fileSize))] }
          else st
        finishWith st none
      else
        finishWith st (some (.http status
          (if responseText = "" then none else some responseText)))
    else st
  | .errorEvt =>
    if st.sentFlag ∧ ¬ st.xhrDone then
      let st := { st with xhrDone := true, signalListenerOn := false, timerArmed := false }
      finishWith st (some .network)
    else st
  | .signalFire =>
    if st.signalFired then st
    else
      let st := { st with signalFired := true }
      if st.signalListenerOn then finishWith st (some .abort) else st
  | .timerFire =>
    if st.timerArmed then
      let st := { st with timerArmed := false }
      let st := xhrAbort st
      finishWith st (some .timeout)
    else st

/-- `doUpload(opts)` observed over a script of environment events. -/
def doUploadRun (o : XOpts) (events : List XEvent) : XState :=
  events.foldl (doUploadStep o) (doUploadStart o)

/-- Options for the pre-signaled-cancellation witness: a signal that is
already aborted before the transfer starts. -/
def c5Opts : XOpts :=
  { url := "https://up.example/x", fileSize := 100, hasSignal := true,
    signalAborted := true, timeoutMs := none, hasOnProgress := true,
    throttleMs := DEFAULT_THROTTLE_MS, emitOnStart := true, emitOnEnd := true }

/-- Options for the mid-flight-cancellation run: a live signal, no timeout,
an `onProgress` callback, default progress options. -/
def c2Opts : XOpts :=
  { url := "https://up.example/x", fileSize := 100, hasSignal := true,
    signalAborted := false, timeoutMs := none, hasOnProgress := true,
    throttleMs := DEFAULT_THROTTLE_MS, emitOnStart := true, emitOnEnd := true }

/-- Options for the timeout run: `timeoutMs = 50`, no signal, no `onProgress`
callback. -/
def c4Opts : XOpts :=
  { url := "https://up.example/x", fileSize := 100, hasSignal := false,
    signalAborted := false, timeoutMs := some 50, hasOnProgress := false,
    throttleMs := DEFAULT_THROTTLE_MS, emitOnStart := true, emitOnEnd := true }

/-- `calculateBackoffDelay(attempt, baseDelayMs, maxDelayMs, jitter)` from
`@uplnk/core/retry-strategies`: `min(base * 2^attempt, cap)`, plus — when
jitter is on — `exponentialDelay * 0.25 * Math.random()`.  `rand` models the
`Math.random()` draw, which lies in `[0, 1)`. -/
def calculateBackoffDelay (attempt : Nat) (baseDelayMs maxDelayMs : Rat)
    (jitter : Bool) (rand : Rat) : Rat :=
  let exponentialDelay := min (baseDelayMs * 2 ^ attempt) maxDelayMs
  if ¬ jitter then exponentialDelay
  else exponentialDelay + exponentialDelay * (1 / 4) * rand

/-- `ValidationError` from `@uplnk/core/validators`. -/
inductive ValidationError where
  | sizeTooLarge (maxSize actualSize : Nat)
  | sizeTooSmall (minSize actualSize : Nat)
  | invalidType (allowedTypes : List String) (actualType : String)
  | custom (message : String)
deriving DecidableEq, Repr

/-- A `File | Blob` argument: byte size, declared MIME type, and — for `File`
instances only — a file name (`none` models a plain `Blob`, for which the
`file instanceof File` extension check is skipped). -/
structure FileM where
  size : Nat
  type : String
  name : Option String
deriving DecidableEq, Repr

/-- `FileValidationOptions` from `@uplnk/core/validators`: optional size
bounds, allowed MIME types / extensions (`none` models an absent field), and
the custom validator (`fun _ => none` models an absent `customValidator`,
which the source treats identically to one that never rejects). -/
structure FileValidationOptions where
  maxSize : Option Nat
  minSize : Option Nat
  allowedTypes : Option (List String)
  allowedExtensions : Option (List String)
  customValidator : FileM → Option ValidationError

/-- The `maxSize != null && file.size > maxSize` check of `validateSize`. -/
def checkMaxSize (file : FileM) : Option Nat → Option ValidationError
  | some m => if m < file.size then some (.sizeTooLarge m file.size) else none
  | none => none

/-- The `minSize != null && file.size < minSize` check of `validateSize`. -/
def checkMinSize (file : FileM) : Option Nat → Option ValidationError
  | some m => if file.size < m then some (.sizeTooSmall m file.size) else none
  | none => none

/-- `validateSize(file, options)`: the max check returns first, then the min
check. -/
def validateSize (file : FileM) (options : FileValidationOptions) :
    Option ValidationError :=
  match checkMaxSize file options.maxSize with
  | some e => some e
  | none => checkMinSize file options.minSize

/-- `getFileExtension(filename)`: everything from the last `.` on, or `""`
when there is no dot or the only dot is the leading character.  Implemented
over the character list; `lastDotIdx` returns the index of the last `'.'`. -/
def lastDotIdx : List Char → Option Nat
  | [] => none
  | c :: cs =>
    match lastDotIdx cs with
    | some j => some (j + 1)
    | none => if c = '.' then some 0 else none

/-- `getFileExtension(filename)` from `@uplnk/core/validators`. -/
def getFileExtension (filename : String) : String :=
  match lastDotIdx filename.toList with
  | none => ""
  | some 0 => ""
  | some i => String.mk (filename.toList.drop i)

/-- The extension normalisation of `validateType`: lower-case, prepend a dot
when missing. -/
def normalizeExt (e : String) : String :=
  if (e.toLower).startsWith "." then e.toLower else "." ++ e.toLower

/-- `validateType(file, options)`: the MIME-type membership check (only when
`allowedTypes` is present and non-empty), then — only for `File` instances —
the normalised extension check. -/
def validateType (file : FileM) (options : FileValidationOptions) :
    Option ValidationError :=
  let typeErr : Option ValidationError :=
    match options.allowedTypes with
    | some ts =>
      if 0 < ts.length ∧ ¬ ts.contains file.type then
        some (.invalidType ts file.type)
      else none
    | none => none
  match typeErr with
  | some e => some e
  | none =>
    match options.allowedExtensions, file.name with
    | some exts, some nm =>
      if 0 < exts.length then
        let extension := getFileExtension nm
        let normalizedAllowed := exts.map normalizeExt
        let normalizedActual := extension.toLower
        if ¬ normalizedAllowed.contains normalizedActual then
          some (.invalidType exts extension)
        else none
      else none
    | _, _ => none

/-- `validateFile(file, options)`: size check, then type check, then the
custom validator — first failure returns. -/
def validateFile (file : FileM) (options : FileValidationOptions) :
    Option ValidationError :=
  match validateSize file options with
  | some e => some e
  | none =>
    match validateType file options with
    | some e => some e
    | none => options.customValidator file

/-- The C9 size example: `maxSize = 10 MB`, nothing else configured. -/
def c9SizeOpts : FileValidationOptions :=
  { maxSize := some (10 * 1024 * 1024), minSize := none, allowedTypes := none,
    allowedExtensions := none, customValidator := fun _ => none }

/-- The C9 type example: `allowedTypes = ["image/png"]`, nothing else. -/
def c9TypeOpts : FileValidationOptions :=
  { maxSize := none, minSize := none, allowedTypes := some ["image/png"],
    allowedExtensions := none, customValidator := fun _ => none }

/-- `BatchUploadStatus` from `@uplnk/core/batch`. -/
inductive BatchStatus where
  | pending
  | uploading
  | completed
  | failed
deriving DecidableEq, Repr

/-- The mutable state of one `batchUpload` call: the per-item `status` fields
of the `items` array (indexed by position), the `queue` and `active` arrays of
the scheduling loop (holding item indices; the source holds item records and
promises, one per dispatched item), and the `completed`/`failed`/`aborted`
counters.  The per-item progress snapshots and the `uploadedBytesMap` byte
aggregation feed only the `onProgress` callback and are not modelled: no
verified property mentions them. -/
structure BatchState where
  statuses : List BatchStatus
  queue : List Nat
  active : List Nat
  completed : Nat
  failed : Nat
  aborted : Bool
deriving DecidableEq, Repr

/-- The initialisation of `batchUpload`: every item starts `pending`
(`items = uploads.map(... status: "pending" ...)`), the ready queue is
`[...items]` in order, nothing active, zero counters. -/
def initBatch (n : Nat) : BatchState :=
  { statuses := List.replicate n .pending, queue := List.range n, active := [],
    completed := 0, failed := 0, aborted := false }

/-- One dispatch from the inner `while (active.length < concurrency &&
queue.length > 0)` loop: `queue.shift()`, `item.status = "uploading"` (the
synchronous prefix of `processItem`), `active.push(promise)`.  No `await`
separates these, so they form one atomic step of the cooperative
scheduler. -/
def dispatchOne (st : BatchState) : BatchState :=
  match st.queue with
  | [] => st
  | i :: rest =>
    { st with
      queue := rest
      active := st.active ++ [i]
      statuses := st.statuses.set i .uploading }

/-- Settlement of the `k`-th active item (the `Promise.race` winner): the
continuation of `processItem` after `await uplnk(...)` — on resolution
`status = "completed"`, `completed++`; on rejection `status = "failed"`,
`failed++`, and `aborted = true` when `stopOnError` — followed by the `.then`
that splices the settled promise out of `active`.  `outcome i` is how item
`i`'s `uplnk` call settles.  Removal is by value (`erase i`): the source
splices at `indexOf(promise)`, and promises are distinct objects, one per
item. -/
def settleItem (stopOnError : Bool) (outcome : Nat → Option UploadError)
    (st : BatchState) (k : Nat) : BatchState :=
  match st.active[k]? with
  | none => st
  | some i =>
    match outcome i with
    | none =>
      { st with
        statuses := st.statuses.set i .completed
        completed := st.completed + 1
        active := st.active.erase i }
    | some _ =>
      { st with
        statuses := st.statuses.set i .failed
        failed := st.failed + 1
        aborted := st.aborted || stopOnError
        active := st.active.erase i }

/-- The inner fill loop of `batchUpload`, with fuel (called with fuel =
`queue.length`, enough to reach the loop's exit condition).  Returns the final
state and the trace of intermediate states, one per dispatch. -/
def fillLoop (c : Nat) : Nat → BatchState → BatchState × List BatchState
  | 0, st => (st, [])
  | fuel + 1, st =>
    if st.active.length < c ∧ st.queue ≠ [] then
      let p := fillLoop c fuel (dispatchOne st)
      (p.1, dispatchOne st :: p.2)
    else (st, [])

/-- The `await Promise.all(active)` after the main loop exits (reached with a
non-empty active set only on an aborted break): the remaining active items
settle one by one. -/
def drainLoop (stopOnError : Bool) (outcome : Nat → Option UploadError) :
    Nat → BatchState → BatchState × List BatchState
  | 0, st => (st, [])
  | fuel + 1, st =>
    if st.active = [] then (st, [])
    else
      let st1 := settleItem stopOnError outcome st 0
      let p := drainLoop stopOnError outcome fuel st1
      (p.1, st1 :: p.2)

/-- The outer `while (queue.length > 0 || active.length > 0)` loop of
`batchUpload`: check the exit condition, `if (aborted) break` (then
`Promise.all(active)` drains), fill the active set up to the concurrency
limit, then `await Promise.race(active)` — the schedule supplies which active
item settles first; settlements are serialised because every mutation runs in
the single-threaded settle continuations.  Fuel bounds the number of
iterations; `queue.length + active.length` shrinks by one per iteration, so
fuel = item count suffices. -/
def batchLoop (c : Nat) (stopOnError : Bool) (outcome : Nat → Option UploadError) :
    Nat → List Nat → BatchState → BatchState × List BatchState
  | 0, _, st => (st, [])
  | fuel + 1, sched, st =>
    if st.queue = [] ∧ st.active = [] then (st, [])
    else if st.aborted then drainLoop stopOnError outcome st.active.length st
    else
      let p := fillLoop c st.queue.length st
      if p.1.active = [] then p
      else
        let st2 := settleItem stopOnError outcome p.1 (sched.headD 0 % p.1.active.length)
        let q := batchLoop c stopOnError outcome fuel sched.tail st2
        (q.1, p.2 ++ st2 :: q.2)

/-- `batchUpload(uploads, options)` over `n = uploads.length` items:
the early return when the shared signal is already aborted, otherwise the
scheduling loop.  Returns the final state and the full state trace
(initial state plus one state per scheduler step). -/
def batchRun (n c : Nat) (stopOnError : Bool) (outcome : Nat → Option UploadError)
    (signalAborted : Bool) (sched : List Nat) : BatchState × List BatchState :=
  let st0 := initBatch n
  if signalAborted then ({ st0 with aborted := true }, [st0])
  else
    let p := batchLoop c stopOnError outcome n sched st0
    (p.1, st0 :: p.2)

/-- Every state the batch passes through during `batchRun`. -/
def batchStates (n c : Nat) (stopOnError : Bool) (outcome : Nat → Option UploadError)
    (signalAborted : Bool) (sched : List Nat) : List BatchState :=
  (batchRun n c stopOnError outcome signalAborted sched).2

/-- `BatchUploadResult` from `@uplnk/core/batch`: the final item statuses and
`{ successful: completed, failed, aborted }`. -/
structure BatchResultM where
  statuses : List BatchStatus
  successful : Nat
  failed : Nat
  aborted : Bool
deriving DecidableEq, Repr

/-- The value `batchUpload` returns. -/
def batchResult (n c : Nat) (stopOnError : Bool) (outcome : Nat → Option UploadError)
    (signalAborted : Bool) (sched : List Nat) : BatchResultM :=
  let fin := (batchRun n c stopOnError outcome signalAborted sched).1
  { statuses := fin.statuses, successful := fin.completed,
    failed := fin.failed, aborted := fin.aborted }

/-- The number of items currently in `"uploading"` status. -/
def countUploading (st : BatchState) : Nat :=
  st.statuses.countP (· == .uploading)

/-- Structural well-formedness of a batch state: statuses length, no index is
queued or active twice, queued items are pending, active items are uploading,
the uploading count equals the active-set size, and the active set respects
the concurrency limit. -/
structure BatchWF (n c : Nat) (st : BatchState) : Prop where
  len : st.statuses.length = n
  nodup : (st.queue ++ st.active).Nodup
  queuePending : ∀ i ∈ st.queue, st.statuses[i]? = some .pending
  activeUploading : ∀ i ∈ st.active, st.statuses[i]? = some .uploading
  countEq : st.statuses.countP (· == .uploading) = st.active.length
  activeLe : st.active.length ≤ c

/-- Accounting invariants of a batch state: the counters match the statuses,
terminal statuses match the item outcomes, and non-terminal items are parked
in the queue or active set. -/
structure BatchAcc (outcome : Nat → Option UploadError) (st : BatchState) : Prop where
  compCount : st.completed = st.statuses.countP (· == .completed)
  failCount : st.failed = st.statuses.countP (· == .failed)
  compOut : ∀ i, st.statuses[i]? = some .completed → outcome i = none
  failOut : ∀ i, st.statuses[i]? = some .failed → outcome i ≠ none
  pendQueue : ∀ i, st.statuses[i]? = some .pending → i ∈ st.queue
  upActive : ∀ i, st.statuses[i]? = some .uploading → i ∈ st.active

/-- The combined batch invariant. -/
def BatchInv (n c : Nat) (outcome : Nat → Option UploadError) (st : BatchState) :
    Prop :=
  BatchWF n c st ∧ BatchAcc outcome st

/-- The C8 outcome profile over 5 items: items 2 and 4 (1-based), i.e.
indices 1 and 3, fail with a network error; the rest succeed. -/
def out5 : Nat → Option UploadError :=
  fun i => if i = 1 ∨ i = 3 then some .network else none

/-- One entry of the `items` array owned by `createUploadQueue`: its generated
id and its status.  (The stored `options` only matter as the payload that
`start` maps over; item outcomes are supplied to `start` directly.) -/
structure QItem where
  id : Nat
  status : BatchStatus
deriving DecidableEq, Repr

/-- The closure state of `createUploadQueue`: the `items` array, the id
source (the source generates `upload-<timestamp>-<random>` strings; a
counter models their uniqueness), the `isRunning` flag, the shared
`AbortController`'s aborted flag, and the settled result of the last batch
(`currentBatch`). -/
structure QState where
  items : List QItem
  nextId : Nat
  isRunning : Bool
  ctrlAborted : Bool
  lastResult : Option BatchResultM
deriving DecidableEq, Repr

/-- `add(uploadOptions)`: push a fresh `pending` item. -/
def qAdd (st : QState) : QState :=
  { st with
    items := st.items ++ [⟨st.nextId, .pending⟩]
    nextId := st.nextId + 1 }

/-- `start()`: no-op when running; otherwise set `isRunning`, collect the
pending items, return early when there are none (leaving `isRunning` true, as
the source does), else run `batchUpload(pendingItems.map(i => i.options), …)`.
Crucially, `batchUpload` receives only the mapped `options` values and builds
its own fresh item records (`initBatch`), so the queue's `items` are never
touched; the batch is modelled as settling synchronously (`.finally` resets
`isRunning`).  `out`/`sched` supply the per-item outcomes and the settlement
schedule of that batch. -/
def qStart (qc : Nat) (out : Nat → Option UploadError) (sched : List Nat)
    (st : QState) : QState :=
  if st.isRunning then st
  else
    let pendingCount := (st.items.filter (fun it => it.status == .pending)).length
    if pendingCount = 0 then { st with isRunning := true }
    else
      { st with
        isRunning := false
        lastResult := some (batchResult pendingCount qc false out st.ctrlAborted sched) }

/-- `abort()`: signal the shared controller and mark the queue idle. -/
def qAbort (st : QState) : QState :=
  { st with
    ctrlAborted := true
    isRunning := false }

/-- `clear()`: remove the items whose status is `completed` or `failed`,
keep the rest. -/
def qClear (st : QState) : QState :=
  { st with
    items := st.items.filter
      (fun it => ¬(it.status == .completed || it.status == .failed)) }

/-- The mutating operations callable on an upload queue.
`waitForCompletion` starts the queue when idle and then awaits the current
batch, which in this synchronous model is the same state change as `start`;
`getStatus`/`getItems` are pure observations. -/
inductive QOp where
  | add
  | addMany (k : Nat)
  | start (out : Nat → Option UploadError) (sched : List Nat)
  | waitForCompletion (out : Nat → Option UploadError) (sched : List Nat)
  | abortOp
  | clear

/-- One queue operation. -/
def qStep (qc : Nat) (st : QState) : QOp → QState
  | .add => qAdd st
  | .addMany k => (List.replicate k ()).foldl (fun s _ => qAdd s) st
  | .start out sched => qStart qc out sched st
  | .waitForCompletion out sched => qStart qc out sched st
  | .abortOp => qAbort st
  | .clear => qClear st

/-- The state `createUploadQueue(options)` starts from. -/
def qInit : QState :=
  { items := [], nextId := 0, isRunning := false, ctrlAborted := false,
    lastResult := none }

/-- A queue after an arbitrary sequence of operations. -/
def qRun (qc : Nat) (ops : List QOp) : QState :=
  ops.foldl (qStep qc) qInit

/-- The record `getStatus()` returns. -/
structure QStatus where
  total : Nat
  pending : Nat
  uploading : Nat
  completed : Nat
  failed : Nat
  isRunning : Bool
deriving DecidableEq, Repr

/-- `getStatus()` from `createUploadQueue`. -/
def getStatusM (st : QState) : QStatus :=
  { total := st.items.length
    pending := (st.items.filter (fun it => it.status == .pending)).length
    uploading := (st.items.filter (fun it => it.status == .uploading)).length
    completed := (st.items.filter (fun it => it.status == .completed)).length
    failed := (st.items.filter (fun it => it.status == .failed)).length
    isRunning := st.isRunning }

theorem retryLoop_calls_lt (delay : DelayMs) (p : UploadError → Nat → Bool)
    (res : Nat → Option UploadError) (a r : Nat) (err : UploadError) (i : Nat)
    (h : (err, i) ∈ (retryLoop delay p res a r).shouldRetryCalls) :
    i + 1 < a + r := by
  induction r generalizing a with
  | zero => simp [retryLoop] at h
  | succ r ih =>
    rcases hres : res a with _ | e
    · simp [retryLoop, hres] at h
    · by_cases hr : r = 0
      · subst hr; simp [retryLoop, hres] at h
      · by_cases hp : p e a
        · simp [retryLoop, hres, hr, hp] at h
          rcases h with ⟨he, hi⟩ | h
          · omega
          · have := ih (a + 1) h
            omega
        · simp [retryLoop, hres, hr, hp] at h
          omega

/-- Claim C3: with `attempts = 3` and an always-true predicate, exactly 3
attempts occur and the third failure is surfaced; with a predicate that
returns false on the first failure, exactly 1 attempt occurs; and the
`shouldRetry` predicate is only ever invoked with an attempt index strictly
below `attempts - 1`, i.e. never for the final allowed attempt. -/
theorem uplnk_retry_attempt_counts :
    (∀ (d : DelayMs) (e : Nat → UploadError),
        (uplnkRun ⟨3, d, fun _ _ => true⟩ (fun i => some (e i))).attemptsMade = 3 ∧
        (uplnkRun ⟨3, d, fun _ _ => true⟩ (fun i => some (e i))).result = some (e 2)) ∧
    (∀ (d : DelayMs) (e : Nat → UploadError) (p : UploadError → Nat → Bool),
        p (e 0) 0 = false →
        (uplnkRun ⟨3, d, p⟩ (fun i => some (e i))).attemptsMade = 1) ∧
    (∀ (ro : RetryOptions) (res : Nat → Option UploadError)
        (err : UploadError) (i : Nat),
        (err, i) ∈ (uplnkRun ro res).shouldRetryCalls → i < ro.attempts - 1) := by
  refine ⟨fun d e => ⟨rfl, rfl⟩, fun d e p hp => ?_, fun ro res err i h => ?_⟩
  · simp [uplnkRun, retryLoop, hp]
  · have := retryLoop_calls_lt ro.delayMs ro.shouldRetry res 0 ro.attempts err i h
    omega

/-- Witness for C3 at concrete inputs: a fixed 7 ms delay, all attempts
failing with a network error. -/
theorem uplnk_retry_attempt_counts_witness :
    (uplnkRun ⟨3, .fixed 7, fun _ _ => true⟩ (fun _ => some .network)).attemptsMade = 3 ∧
    (uplnkRun ⟨3, .fixed 7, fun _ _ => false⟩ (fun _ => some .network)).attemptsMade = 1 ∧
    (0 : Nat) < 3 - 1 :=
  ⟨(uplnk_retry_attempt_counts.1 (.fixed 7) (fun _ => .network)).1,
   uplnk_retry_attempt_counts.2.1 (.fixed 7) (fun _ => .network) (fun _ _ => false) rfl,
   uplnk_retry_attempt_counts.2.2 ⟨3, .fixed 7, fun _ _ => true⟩
     (fun _ => some .network) .network 0 (by decide)⟩

theorem doUploadStep_stuck (o : XOpts) (st : XState) (e : XEvent)
    (h1 : st.sentFlag = false) (h2 : st.timerArmed = false)
    (h3 : st.signalFired = true) :
    doUploadStep o st e = st := by
  cases e <;> simp [doUploadStep, h1, h2, h3]

/-- Claim C5: when the cancellation token is already signaled before the
attempt starts, `doUpload` settles with the abort outcome immediately: the
only callback ever invoked is the terminal `onError({type:"abort"})` — in
particular no progress callback and no `onStart` — and `xhr.open`/`xhr.send`
are never reached, whatever the environment does afterwards. -/
theorem executor_presignaled_rejects_early (o : XOpts) (events : List XEvent)
    (hurl : o.url ≠ "") (hsig : o.hasSignal = true) (hab : o.signalAborted = true) :
    (doUploadRun o events).settled = some (.err .abort) ∧
    (doUploadRun o events).callbacks = [.onErrorCb .abort] ∧
    (doUploadRun o events).opened = false ∧
    (doUploadRun o events).sentFlag = false := by
  have hstart : doUploadStart o =
      { callbacks := [.onErrorCb .abort]
        settled := some (.err .abort)
        signalListenerOn := false
        signalFired := true
        timerArmed := false
        opened := false
        sentFlag := false
        xhrDone := false
        abortCalled := false
        lastEmit := 0 } := by
    simp [doUploadStart, hurl, hsig, hab]
  have key : ∀ (evs : List XEvent) (st : XState),
      st.sentFlag = false → st.timerArmed = false → st.signalFired = true →
      evs.foldl (doUploadStep o) st = st := by
    intro evs
    induction evs with
    | nil => intro st _ _ _; rfl
    | cons e es ih =>
      intro st h1 h2 h3
      rw [List.foldl_cons, doUploadStep_stuck o st e h1 h2 h3]
      exact ih st h1 h2 h3
  rw [doUploadRun, hstart, key events _ rfl rfl rfl]
  exact ⟨rfl, rfl, rfl, rfl⟩

/-- Witness for C5: concrete pre-aborted options against a hostile event
script (a stray timer fire and a progress event). -/
theorem executor_presignaled_rejects_early_witness :
    (doUploadRun c5Opts [.timerFire, .progressEvt 200 25 100 true]).settled
        = some (.err .abort) ∧
    (doUploadRun c5Opts [.timerFire, .progressEvt 200 25 100 true]).callbacks
        = [.onErrorCb .abort] ∧
    (doUploadRun c5Opts [.timerFire, .progressEvt 200 25 100 true]).opened = false ∧
    (doUploadRun c5Opts [.timerFire, .progressEvt 200 25 100 true]).sentFlag = false :=
  executor_presignaled_rejects_early c5Opts [.timerFire, .progressEvt 200 25 100 true]
    (by decide) rfl rfl

/-- Claim C2 (code bug evaluation): when the signal fires mid-flight the
promise does settle with the abort outcome, but the in-progress network
operation is never aborted (`xhr.abort()` is not called by the signal
handler), and a later upload progress event still invokes `onProgress` after
the terminal `onError` — a non-terminal callback after settlement. -/
theorem executor_midflight_cancel_not_aborted :
    (doUploadRun c2Opts
        [.progressEvt 200 25 100 true, .signalFire, .progressEvt 400 50 100 true]).settled
      = some (.err .abort) ∧
    (doUploadRun c2Opts
        [.progressEvt 200 25 100 true, .signalFire, .progressEvt 400 50 100 true]).abortCalled
      = false ∧
    (doUploadRun c2Opts
        [.progressEvt 200 25 100 true, .signalFire, .progressEvt 400 50 100 true]).callbacks
      = [.onStartCb,
         .onProgressCb ⟨0, some 100, some 0, none, none⟩,
         .onProgressCb ⟨25, some 100, some 25, some 125, some (3/5 : Rat)⟩,
         .onErrorCb .abort,
         .onProgressCb ⟨50, some 100, some 50, some 125, some (2/5 : Rat)⟩] := by
  have hu : ("https://up.example/x" : String) = "" ↔ False := by simp
  refine ⟨?_, ?_, ?_⟩ <;>
    norm_num [doUploadRun, doUploadStart, doUploadStep, progressListener,
      emitProgressStep, createProgress, finishWith, xhrAbort, c2Opts,
      DEFAULT_THROTTLE_MS, min_def, hu]

/-- Claim C4 (code bug evaluation): when the armed timeout timer fires, the
executor does call `xhr.abort()`, but the XHR abort event that `abort()`
fires synchronously settles the promise with `{type:"abort"}` before
`handleError({type:"timeout"})` runs, so the transfer settles with the
cancelled outcome, not the timed-out one; `onError` is invoked twice (abort
then timeout). -/
theorem executor_timeout_settles_abort :
    (doUploadRun c4Opts [.timerFire]).settled = some (.err .abort) ∧
    (doUploadRun c4Opts [.timerFire]).settled ≠ some (.err .timeout) ∧
    (doUploadRun c4Opts [.timerFire]).abortCalled = true ∧
    (doUploadRun c4Opts [.timerFire]).callbacks
      = [.onStartCb, .onErrorCb .abort, .onErrorCb .timeout] := by
  have hu : ("https://up.example/x" : String) = "" ↔ False := by simp
  refine ⟨?_, ?_, ?_, ?_⟩ <;>
    norm_num [doUploadRun, doUploadStart, doUploadStep, progressListener,
      emitProgressStep, createProgress, finishWith, xhrAbort, c4Opts,
      DEFAULT_THROTTLE_MS, hu]
  simp

/-- Claim C6: without jitter `calculateBackoffDelay` equals
`min(base * 2^attempt, cap)` — so for base 1000 and cap 30000 the delays are
1000, 2000, 4000 at attempts 0, 1, 2 and 30000 at attempt 10 — and with
jitter enabled the result lies in `[min(base*2^n,cap), 1.25*min(base*2^n,cap)]`
for every `Math.random()` draw in `[0,1)`: jitter only increases the delay. -/
theorem calculateBackoffDelay_spec :
    (∀ (n : Nat) (b c r : Rat),
        calculateBackoffDelay n b c false r = min (b * 2 ^ n) c) ∧
    (∀ r : Rat,
        calculateBackoffDelay 0 1000 30000 false r = 1000 ∧
        calculateBackoffDelay 1 1000 30000 false r = 2000 ∧
        calculateBackoffDelay 2 1000 30000 false r = 4000 ∧
        calculateBackoffDelay 10 1000 30000 false r = 30000) ∧
    (∀ (n : Nat) (b c r : Rat), 0 ≤ b → 0 ≤ c → 0 ≤ r → r < 1 →
        min (b * 2 ^ n) c ≤ calculateBackoffDelay n b c true r ∧
        calculateBackoffDelay n b c true r ≤ 5 / 4 * min (b * 2 ^ n) c) := by
  refine ⟨fun n b c r => rfl, fun r => ?_, fun n b c r hb hc hr0 hr1 => ?_⟩
  · refine ⟨?_, ?_, ?_, ?_⟩ <;> norm_num [calculateBackoffDelay, min_def]
  · have hd : 0 ≤ min (b * 2 ^ n) c := le_min (by positivity) hc
    simp only [calculateBackoffDelay, Bool.not_eq_true]
    norm_num
    constructor
    · nlinarith [mul_nonneg (mul_nonneg hd (by norm_num : (0:Rat) ≤ 1 / 4)) hr0]
    · nlinarith [mul_nonneg hd (sub_nonneg.mpr hr1.le)]

/-- Witness for C6 at base 1000, cap 30000, attempts 10 and 2, and a
`Math.random()` draw of 1/2. -/
theorem calculateBackoffDelay_spec_witness :
    calculateBackoffDelay 10 1000 30000 false (1 / 2) = 30000 ∧
    min ((1000 : Rat) * 2 ^ 2) 30000 ≤ calculateBackoffDelay 2 1000 30000 true (1 / 2) ∧
    calculateBackoffDelay 2 1000 30000 true (1 / 2)
      ≤ 5 / 4 * min ((1000 : Rat) * 2 ^ 2) 30000 :=
  ⟨(calculateBackoffDelay_spec.2.1 (1 / 2)).2.2.2,
   (calculateBackoffDelay_spec.2.2 2 1000 30000 (1 / 2)
      (by norm_num) (by norm_num) (by norm_num) (by norm_num)).1,
   (calculateBackoffDelay_spec.2.2 2 1000 30000 (1 / 2)
      (by norm_num) (by norm_num) (by norm_num) (by norm_num)).2⟩

/-- Claim C9: `validateFile` checks size, then type, then the custom
validator, returning the first failure and skipping everything after it (in
particular the result is independent of the custom validator whenever size or
type fails, and the custom validator runs only when both pass); an 11 MB
payload against `maxSize = 10 MB` yields `size-too-large{max, actual}`, and a
"text/plain" payload against `allowedTypes = ["image/png"]` yields
`invalid-type`. -/
theorem validateFile_order :
    (∀ (file : FileM) (o : FileValidationOptions) (e : ValidationError),
        validateSize file o = some e →
        ∀ g, validateFile file { o with customValidator := g } = some e) ∧
    (∀ (file : FileM) (o : FileValidationOptions) (e : ValidationError),
        validateSize file o = none → validateType file o = some e →
        ∀ g, validateFile file { o with customValidator := g } = some e) ∧
    (∀ (file : FileM) (o : FileValidationOptions),
        validateSize file o = none → validateType file o = none →
        ∀ g, validateFile file { o with customValidator := g } = g file) ∧
    validateFile ⟨11 * 1024 * 1024, "application/octet-stream", none⟩ c9SizeOpts
      = some (.sizeTooLarge (10 * 1024 * 1024) (11 * 1024 * 1024)) ∧
    validateFile ⟨4, "text/plain", none⟩ c9TypeOpts
      = some (.invalidType ["image/png"] "text/plain") := by
  refine ⟨fun file o e hs g => ?_, fun file o e hs ht g => ?_,
    fun file o hs ht g => ?_, by decide, by decide⟩
  · have hs' : validateSize file { o with customValidator := g } = some e := hs
    simp [validateFile, hs']
  · have hs' : validateSize file { o with customValidator := g } = none := hs
    have ht' : validateType file { o with customValidator := g } = some e := ht
    simp [validateFile, hs', ht']
  · have hs' : validateSize file { o with customValidator := g } = none := hs
    have ht' : validateType file { o with customValidator := g } = none := ht
    simp [validateFile, hs', ht']

/-- Witness for C9: a payload violating both the size and the type
constraint returns the size error, independent of the custom validator. -/
theorem validateFile_order_witness :
    validateFile ⟨11 * 1024 * 1024, "text/plain", none⟩
      { maxSize := some (10 * 1024 * 1024), minSize := none,
        allowedTypes := some ["image/png"], allowedExtensions := none,
        customValidator := fun _ => none }
      = some (.sizeTooLarge (10 * 1024 * 1024) (11 * 1024 * 1024)) :=
  validateFile_order.1 ⟨11 * 1024 * 1024, "text/plain", none⟩
    { maxSize := some (10 * 1024 * 1024), minSize := none,
      allowedTypes := some ["image/png"], allowedExtensions := none,
      customValidator := fun _ => none }
    (.sizeTooLarge (10 * 1024 * 1024) (11 * 1024 * 1024)) (by decide)
    (fun _ => none)

/-- Claim C1 (code bug evaluation): with a fixed numeric delay the coordinator
waits exactly that duration between attempts, but with a function-valued
delay (`delayFnThousand`, which returns 1000 ms at every index) the effective
wait is `setTimeoutDelay`'s coercion result 0 ms, not the 1000 ms the
function returns. -/
theorem uplnk_function_delay_ignored :
    (uplnkRun ⟨2, .fixed 1000, fun _ _ => true⟩ (fun _ => some .network)).waits = [1000] ∧
    (uplnkRun ⟨2, delayFnThousand, fun _ _ => true⟩ (fun _ => some .network)).waits = [0] ∧
    (match delayFnThousand with | .fn f => f 0 | .fixed ms => ms) = 1000 := by
  refine ⟨rfl, rfl, rfl⟩

theorem countP_set_of_getElem? {α : Type} {l : List α} {i : Nat} {s : α}
    (h : l[i]? = some s) (p : α → Bool) (a : α) :
    (l.set i a).countP p + (if p s then 1 else 0)
      = l.countP p + (if p a then 1 else 0) := by
  obtain ⟨hlt, heq⟩ := List.getElem?_eq_some_iff.mp h
  have hb := List.boole_getElem_le_countP p l i hlt
  rw [List.countP_set p l i a hlt, heq]
  rw [heq] at hb
  omega

theorem dispatchOne_cons {st : BatchState} {i : Nat} {rest : List Nat}
    (h : st.queue = i :: rest) :
    dispatchOne st =
      { st with
        queue := rest
        active := st.active ++ [i]
        statuses := st.statuses.set i .uploading } := by
  unfold dispatchOne
  rw [h]

theorem settleItem_none {so : Bool} {out : Nat → Option UploadError}
    {st : BatchState} {k : Nat} (h : st.active[k]? = none) :
    settleItem so out st k = st := by
  unfold settleItem
  rw [h]

theorem settleItem_comp {so : Bool} {out : Nat → Option UploadError}
    {st : BatchState} {k i : Nat} (h : st.active[k]? = some i)
    (ho : out i = none) :
    settleItem so out st k =
      { st with
        statuses := st.statuses.set i .completed
        completed := st.completed + 1
        active := st.active.erase i } := by
  simp only [settleItem, h, ho]

theorem settleItem_fail {so : Bool} {out : Nat → Option UploadError}
    {st : BatchState} {k i : Nat} {e : UploadError} (h : st.active[k]? = some i)
    (ho : out i = some e) :
    settleItem so out st k =
      { st with
        statuses := st.statuses.set i .failed
        failed := st.failed + 1
        aborted := st.aborted || so
        active := st.active.erase i } := by
  simp only [settleItem, h, ho]

theorem dispatchOne_inv {n c : Nat} {out : Nat → Option UploadError}
    {st : BatchState} (hinv : BatchInv n c out st)
    (hlt : st.active.length < c) (hq : st.queue ≠ []) :
    BatchInv n c out (dispatchOne st) := by
  obtain ⟨hwf, hacc⟩ := hinv
  rcases hqe : st.queue with _ | ⟨i, rest⟩
  · exact absurd hqe hq
  rw [dispatchOne_cons hqe]
  have hiq : i ∈ st.queue := by rw [hqe]; exact List.mem_cons_self i rest
  have hpend : st.statuses[i]? = some .pending := hwf.queuePending i hiq
  obtain ⟨hilt, hival⟩ := List.getElem?_eq_some_iff.mp hpend
  have hnodup' : (i :: (rest ++ st.active)).Nodup := by
    have := hwf.nodup
    rw [hqe] at this
    simpa using this
  have hinot : i ∉ rest ++ st.active := (List.nodup_cons.mp hnodup').1
  have hrest_nodup : (rest ++ st.active).Nodup := (List.nodup_cons.mp hnodup').2
  have hinotrest : i ∉ rest := fun h => hinot (List.mem_append.mpr (Or.inl h))
  have hinotact : i ∉ st.active := fun h => hinot (List.mem_append.mpr (Or.inr h))
  refine ⟨⟨?_, ?_, ?_, ?_, ?_, ?_⟩, ⟨?_, ?_, ?_, ?_, ?_, ?_⟩⟩
  · simp [hwf.len]
  · have hperm : List.Perm (rest ++ (st.active ++ [i])) (i :: (rest ++ st.active)) := by
      have h1 : rest ++ (st.active ++ [i]) = (rest ++ st.active) ++ [i] :=
        (List.append_assoc rest st.active [i]).symm
      rw [h1]
      exact List.perm_append_singleton i (rest ++ st.active)
    exact hnodup'.perm hperm.symm
  · intro j hj
    have hji : i ≠ j := fun h => hinotrest (h ▸ hj)
    rw [List.getElem?_set_ne hji]
    exact hwf.queuePending j (by rw [hqe]; exact List.mem_cons_of_mem _ hj)
  · intro j hj
    rcases List.mem_append.mp hj with hja | hji
    · have hji : i ≠ j := fun h => hinotact (h ▸ hja)
      rw [List.getElem?_set_ne hji]
      exact hwf.activeUploading j hja
    · have hj' : j = i := by simpa using hji
      subst hj'
      exact List.getElem?_set_self hilt
  · have h1 := countP_set_of_getElem? hpend (· == BatchStatus.uploading) .uploading
    have h2 := hwf.countEq
    simp at h1
    dsimp only
    simp only [List.length_append, List.length_cons, List.length_nil]
    omega
  · dsimp only
    simp only [List.length_append, List.length_cons, List.length_nil]
    omega
  · have h1 := countP_set_of_getElem? hpend (· == BatchStatus.completed) .uploading
    have h2 := hacc.compCount
    simp at h1
    dsimp only
    omega
  · have h1 := countP_set_of_getElem? hpend (· == BatchStatus.failed) .uploading
    have h2 := hacc.failCount
    simp at h1
    dsimp only
    omega
  · intro j hj
    by_cases hji : i = j
    · subst hji
      rw [List.getElem?_set_self hilt] at hj
      simp at hj
    · rw [List.getElem?_set_ne hji] at hj
      exact hacc.compOut j hj
  · intro j hj
    by_cases hji : i = j
    · subst hji
      rw [List.getElem?_set_self hilt] at hj
      simp at hj
    · rw [List.getElem?_set_ne hji] at hj
      exact hacc.failOut j hj
  · intro j hj
    by_cases hji : i = j
    · subst hji
      rw [List.getElem?_set_self hilt] at hj
      simp at hj
    · rw [List.getElem?_set_ne hji] at hj
      have := hacc.pendQueue j hj
      rw [hqe] at this
      rcases List.mem_cons.mp this with h | h
      · exact absurd h.symm hji
      · exact h
  · intro j hj
    by_cases hji : i = j
    · subst hji
      exact List.mem_append.mpr (Or.inr (List.mem_singleton.mpr rfl))
    · rw [List.getElem?_set_ne hji] at hj
      exact List.mem_append.mpr (Or.inl (hacc.upActive j hj))

theorem settleItem_inv {n c : Nat} {out : Nat → Option UploadError} (so : Bool)
    {st : BatchState} (hinv : BatchInv n c out st) (k : Nat) :
    BatchInv n c out (settleItem so out st k) := by
  obtain ⟨hwf, hacc⟩ := hinv
  rcases hk : st.active[k]? with _ | i
  · rw [settleItem_none hk]; exact ⟨hwf, hacc⟩
  have him : i ∈ st.active := List.getElem?_mem hk
  have hup : st.statuses[i]? = some .uploading := hwf.activeUploading i him
  obtain ⟨hilt, hival⟩ := List.getElem?_eq_some_iff.mp hup
  have hact_nodup : st.active.Nodup := hwf.nodup.of_append_right
  have hdisj := List.disjoint_of_nodup_append hwf.nodup
  have hinotq : i ∉ st.queue := fun hiq => hdisj hiq him
  have hierase : i ∉ st.active.erase i := hact_nodup.not_mem_erase
  have hsub : List.Sublist (st.queue ++ st.active.erase i) (st.queue ++ st.active) :=
    (List.erase_sublist i st.active).append_left st.queue
  have hlen_erase : (st.active.erase i).length = st.active.length - 1 :=
    List.length_erase_of_mem him
  have hact_pos : 0 < st.active.length := List.length_pos.mpr (List.ne_nil_of_mem him)
  rcases ho : out i with _ | e
  · rw [settleItem_comp hk ho]
    refine ⟨⟨?_, ?_, ?_, ?_, ?_, ?_⟩, ⟨?_, ?_, ?_, ?_, ?_, ?_⟩⟩
    · simp [hwf.len]
    · exact hwf.nodup.sublist hsub
    · intro j hj
      have hji : i ≠ j := fun h => hinotq (h ▸ hj)
      rw [List.getElem?_set_ne hji]
      exact hwf.queuePending j hj
    · intro j hj
      have hja : j ∈ st.active := List.mem_of_mem_erase hj
      have hji : i ≠ j := fun h => hierase (h ▸ hj)
      rw [List.getElem?_set_ne hji]
      exact hwf.activeUploading j hja
    · have h1 := countP_set_of_getElem? hup (· == BatchStatus.uploading) .completed
      have h2 := hwf.countEq
      simp at h1
      dsimp only
      omega
    · dsimp only
      have := hwf.activeLe
      omega
    · have h1 := countP_set_of_getElem? hup (· == BatchStatus.completed) .completed
      have h2 := hacc.compCount
      simp at h1
      dsimp only
      omega
    · have h1 := countP_set_of_getElem? hup (· == BatchStatus.failed) .completed
      have h2 := hacc.failCount
      simp at h1
      dsimp only
      omega
    · intro j hj
      by_cases hji : i = j
      · subst hji; exact ho
      · rw [List.getElem?_set_ne hji] at hj
        exact hacc.compOut j hj
    · intro j hj
      by_cases hji : i = j
      · subst hji
        rw [List.getElem?_set_self hilt] at hj
        simp at hj
      · rw [List.getElem?_set_ne hji] at hj
        exact hacc.failOut j hj
    · intro j hj
      by_cases hji : i = j
      · subst hji
        rw [List.getElem?_set_self hilt] at hj
        simp at hj
      · rw [List.getElem?_set_ne hji] at hj
        exact hacc.pendQueue j hj
    · intro j hj
      by_cases hji : i = j
      · subst hji
        rw [List.getElem?_set_self hilt] at hj
        simp at hj
      · rw [List.getElem?_set_ne hji] at hj
        have hja := hacc.upActive j hj
        exact (List.mem_erase_of_ne (fun h => hji h.symm)).mpr hja
  · rw [settleItem_fail hk ho]
    refine ⟨⟨?_, ?_, ?_, ?_, ?_, ?_⟩, ⟨?_, ?_, ?_, ?_, ?_, ?_⟩⟩
    · simp [hwf.len]
    · exact hwf.nodup.sublist hsub
    · intro j hj
      have hji : i ≠ j := fun h => hinotq (h ▸ hj)
      rw [List.getElem?_set_ne hji]
      exact hwf.queuePending j hj
    · intro j hj
      have hja : j ∈ st.active := List.mem_of_mem_erase hj
      have hji : i ≠ j := fun h => hierase (h ▸ hj)
      rw [List.getElem?_set_ne hji]
      exact hwf.activeUploading j hja
    · have h1 := countP_set_of_getElem? hup (· == BatchStatus.uploading) .failed
      have h2 := hwf.countEq
      simp at h1
      dsimp only
      omega
    · dsimp only
      have := hwf.activeLe
      omega
    · have h1 := countP_set_of_getElem? hup (· == BatchStatus.completed) .failed
      have h2 := hacc.compCount
      simp at h1
      dsimp only
      omega
    · have h1 := countP_set_of_getElem? hup (· == BatchStatus.failed) .failed
      have h2 := hacc.failCount
      simp at h1
      dsimp only
      omega
    · intro j hj
      by_cases hji : i = j
      · subst hji
        rw [List.getElem?_set_self hilt] at hj
        simp at hj
      · rw [List.getElem?_set_ne hji] at hj
        exact hacc.compOut j hj
    · intro j hj
      by_cases hji : i = j
      · subst hji
        rw [ho]
        simp
      · rw [List.getElem?_set_ne hji] at hj
        exact hacc.failOut j hj
    · intro j hj
      by_cases hji : i = j
      · subst hji
        rw [List.getElem?_set_self hilt] at hj
        simp at hj
      · rw [List.getElem?_set_ne hji] at hj
        exact hacc.pendQueue j hj
    · intro j hj
      by_cases hji : i = j
      · subst hji
        rw [List.getElem?_set_self hilt] at hj
        simp at hj
      · rw [List.getElem?_set_ne hji] at hj
        have hja := hacc.upActive j hj
        exact (List.mem_erase_of_ne (fun h => hji h.symm)).mpr hja

theorem fillLoop_facts (c : Nat) (fuel : Nat) (st : BatchState) :
    (fillLoop c fuel st).1.queue.length + (fillLoop c fuel st).1.active.length
        = st.queue.length + st.active.length ∧
    (fillLoop c fuel st).1.aborted = st.aborted := by
  induction fuel generalizing st with
  | zero => simp [fillLoop]
  | succ fuel ih =>
    rw [fillLoop]
    split
    case isTrue h =>
      rcases hq : st.queue with _ | ⟨i, rest⟩
      · exact absurd hq h.2
      obtain ⟨s1, s2⟩ := ih (dispatchOne st)
      dsimp only
      constructor
      · rw [s1, dispatchOne_cons hq]
        dsimp only
        simp only [hq, List.length_append, List.length_cons, List.length_nil]
        omega
      · rw [s2, dispatchOne_cons hq]
    case isFalse h => exact ⟨rfl, rfl⟩

theorem fillLoop_post (c : Nat) (fuel : Nat) (st : BatchState)
    (hfuel : st.queue.length ≤ fuel) :
    (fillLoop c fuel st).1.queue = [] ∨ c ≤ (fillLoop c fuel st).1.active.length := by
  induction fuel generalizing st with
  | zero =>
    left
    have h0 : st.queue.length = 0 := Nat.le_zero.mp hfuel
    simpa [fillLoop] using List.length_eq_zero.mp h0
  | succ fuel ih =>
    rw [fillLoop]
    split
    case isTrue h =>
      rcases hq : st.queue with _ | ⟨i, rest⟩
      · exact absurd hq h.2
      have hle : (dispatchOne st).queue.length ≤ fuel := by
        rw [dispatchOne_cons hq]
        dsimp only
        rw [hq] at hfuel
        simp only [List.length_cons] at hfuel
        omega
      dsimp only
      exact ih (dispatchOne st) hle
    case isFalse h =>
      by_cases hqe : st.queue = []
      · exact Or.inl hqe
      · rcases not_and_or.mp h with h1 | h2
        · exact Or.inr (Nat.le_of_not_lt h1)
        · exact absurd hqe (by simpa using h2)

theorem fillLoop_inv {n c : Nat} {out : Nat → Option UploadError} (fuel : Nat)
    (st : BatchState) (hinv : BatchInv n c out st) :
    BatchInv n c out (fillLoop c fuel st).1 ∧
    ∀ s ∈ (fillLoop c fuel st).2, BatchInv n c out s := by
  induction fuel generalizing st with
  | zero => exact ⟨hinv, by simp [fillLoop]⟩
  | succ fuel ih =>
    rw [fillLoop]
    split
    case isTrue h =>
      have h1 := dispatchOne_inv hinv h.1 h.2
      obtain ⟨hf, ht⟩ := ih (dispatchOne st) h1
      dsimp only
      refine ⟨hf, ?_⟩
      intro s hs
      rcases List.mem_cons.mp hs with rfl | hs
      · exact h1
      · exact ht s hs
    case isFalse h => exact ⟨hinv, by simp⟩

theorem drainLoop_inv {n c : Nat} {out : Nat → Option UploadError} {so : Bool}
    (fuel : Nat) (st : BatchState) (hinv : BatchInv n c out st) :
    BatchInv n c out (drainLoop so out fuel st).1 ∧
    ∀ s ∈ (drainLoop so out fuel st).2, BatchInv n c out s := by
  induction fuel generalizing st with
  | zero => exact ⟨hinv, by simp [drainLoop]⟩
  | succ fuel ih =>
    rw [drainLoop]
    split
    case isTrue h => exact ⟨hinv, by simp⟩
    case isFalse h =>
      have h1 := settleItem_inv so hinv 0
      obtain ⟨hf, ht⟩ := ih (settleItem so out st 0) h1
      dsimp only
      refine ⟨hf, ?_⟩
      intro s hs
      rcases List.mem_cons.mp hs with rfl | hs
      · exact h1
      · exact ht s hs

theorem batchLoop_inv {n c : Nat} {out : Nat → Option UploadError} {so : Bool}
    (fuel : Nat) (sched : List Nat) (st : BatchState)
    (hinv : BatchInv n c out st) :
    BatchInv n c out (batchLoop c so out fuel sched st).1 ∧
    ∀ s ∈ (batchLoop c so out fuel sched st).2, BatchInv n c out s := by
  induction fuel generalizing sched st with
  | zero => exact ⟨hinv, by simp [batchLoop]⟩
  | succ fuel ih =>
    rw [batchLoop]
    split
    case isTrue h => exact ⟨hinv, by simp⟩
    case isFalse hnd =>
      split
      case isTrue hab => exact drainLoop_inv st.active.length st hinv
      case isFalse hnab =>
        obtain ⟨hfill, hfillt⟩ := fillLoop_inv st.queue.length st hinv
        dsimp only
        split
        case isTrue hpe => exact ⟨hfill, hfillt⟩
        case isFalse hpne =>
          have h2 := settleItem_inv so hfill
            (sched.headD 0 % (fillLoop c st.queue.length st).1.active.length)
          obtain ⟨hq1, hq2⟩ := ih sched.tail _ h2
          refine ⟨hq1, ?_⟩
          intro s hs
          rcases List.mem_append.mp hs with hs | hs
          · exact hfillt s hs
          rcases List.mem_cons.mp hs with rfl | hs
          · exact h2
          · exact hq2 s hs

theorem settleItem_facts_noStop (out : Nat → Option UploadError)
    {st : BatchState} (k : Nat) (hk : k < st.active.length) :
    (settleItem false out st k).active.length + 1 = st.active.length ∧
    (settleItem false out st k).queue = st.queue ∧
    (settleItem false out st k).aborted = st.aborted := by
  have hget : st.active[k]? = some st.active[k] := List.getElem?_eq_getElem hk
  have hm : st.active[k] ∈ st.active := List.getElem_mem hk
  have hpos := List.length_pos.mpr (List.ne_nil_of_mem hm)
  rcases ho : out st.active[k] with _ | e
  · rw [settleItem_comp hget ho]
    refine ⟨?_, rfl, rfl⟩
    dsimp only
    rw [List.length_erase_of_mem hm]
    omega
  · rw [settleItem_fail hget ho]
    refine ⟨?_, rfl, by simp⟩
    dsimp only
    rw [List.length_erase_of_mem hm]
    omega

theorem batchLoop_complete {n c : Nat} {out : Nat → Option UploadError}
    (hc : 0 < c) (fuel : Nat) (sched : List Nat) (st : BatchState)
    (hinv : BatchInv n c out st) (hab : st.aborted = false)
    (hfuel : st.queue.length + st.active.length ≤ fuel) :
    (batchLoop c false out fuel sched st).1.queue = [] ∧
    (batchLoop c false out fuel sched st).1.active = [] ∧
    (batchLoop c false out fuel sched st).1.aborted = false := by
  induction fuel generalizing sched st with
  | zero =>
    have hq : st.queue = [] := by
      have : st.queue.length = 0 := by omega
      exact List.length_eq_zero.mp this
    have ha : st.active = [] := by
      have : st.active.length = 0 := by omega
      exact List.length_eq_zero.mp this
    simpa [batchLoop] using ⟨hq, ha, hab⟩
  | succ fuel ih =>
    rw [batchLoop]
    split
    case isTrue h => exact ⟨h.1, h.2, hab⟩
    case isFalse hnd =>
      split
      case isTrue habt => simp [hab] at habt
      case isFalse hnab =>
        obtain ⟨hsum, habf⟩ := fillLoop_facts c st.queue.length st
        obtain ⟨hfill, _⟩ := fillLoop_inv st.queue.length st hinv
        dsimp only
        split
        case isTrue hpe =>
          rcases fillLoop_post c st.queue.length st (Nat.le_refl _) with hq | hcle
          · exact ⟨hq, hpe, by rw [habf, hab]⟩
          · rw [hpe] at hcle
            simp at hcle
            omega
        case isFalse hpne =>
          have hlenpos : 0 < (fillLoop c st.queue.length st).1.active.length :=
            List.length_pos.mpr hpne
          obtain ⟨f1, f2, f3⟩ := settleItem_facts_noStop out
            (sched.headD 0 % (fillLoop c st.queue.length st).1.active.length)
            (Nat.mod_lt _ hlenpos)
          have h2 := settleItem_inv false hfill
            (sched.headD 0 % (fillLoop c st.queue.length st).1.active.length)
          apply ih sched.tail _ h2
          · rw [f3, habf, hab]
          · rw [f2]
            omega

theorem initBatch_inv (n c : Nat) (out : Nat → Option UploadError) :
    BatchInv n c out (initBatch n) := by
  refine ⟨⟨?_, ?_, ?_, ?_, ?_, ?_⟩, ⟨?_, ?_, ?_, ?_, ?_, ?_⟩⟩
  · simp [initBatch]
  · simpa [initBatch] using List.nodup_range n
  · intro i hi
    have hilt : i < n := by simpa [initBatch, List.mem_range] using hi
    simp [initBatch, List.getElem?_replicate, hilt]
  · intro i hi
    simp [initBatch] at hi
  · simp [initBatch, List.countP_replicate]
  · simp [initBatch]
  · simp [initBatch, List.countP_replicate]
  · simp [initBatch, List.countP_replicate]
  · intro i h
    simp only [initBatch, List.getElem?_replicate] at h
    split at h
    · simp at h
    · simp at h
  · intro i h
    simp only [initBatch, List.getElem?_replicate] at h
    split at h
    · simp at h
    · simp at h
  · intro i h
    simp only [initBatch, List.getElem?_replicate] at h
    split at h
    case isTrue hlt => simpa [initBatch, List.mem_range] using hlt
    case isFalse => simp at h
  · intro i h
    simp only [initBatch, List.getElem?_replicate] at h
    split at h
    · simp at h
    · simp at h

theorem batch_final_statuses {n c : Nat} {out : Nat → Option UploadError}
    {st : BatchState} (hinv : BatchInv n c out st) (hq : st.queue = [])
    (ha : st.active = []) :
    st.statuses = (List.range n).map
      (fun i => if out i = none then BatchStatus.completed else BatchStatus.failed) := by
  obtain ⟨hwf, hacc⟩ := hinv
  apply List.ext_getElem?
  intro j
  by_cases hj : j < n
  · have hjlt : j < st.statuses.length := by rw [hwf.len]; exact hj
    have hsome : st.statuses[j]? = some st.statuses[j] := List.getElem?_eq_getElem hjlt
    have hrhs : ((List.range n).map
        (fun i => if out i = none then BatchStatus.completed else BatchStatus.failed))[j]?
        = some (if out j = none then BatchStatus.completed else BatchStatus.failed) := by
      rw [List.getElem?_map, List.getElem?_range hj]
      rfl
    rw [hsome, hrhs]
    cases hs : st.statuses[j] with
    | pending =>
      have hp : st.statuses[j]? = some BatchStatus.pending := by rw [hsome, hs]
      have := hacc.pendQueue j hp
      rw [hq] at this
      simp at this
    | uploading =>
      have hp : st.statuses[j]? = some BatchStatus.uploading := by rw [hsome, hs]
      have := hacc.upActive j hp
      rw [ha] at this
      simp at this
    | completed =>
      have hp : st.statuses[j]? = some BatchStatus.completed := by rw [hsome, hs]
      have hco := hacc.compOut j hp
      rw [hco]
      simp
    | failed =>
      have hp : st.statuses[j]? = some BatchStatus.failed := by rw [hsome, hs]
      have hfo := hacc.failOut j hp
      rw [if_neg hfo]
  · have h1 : st.statuses[j]? = none :=
      List.getElem?_eq_none (by rw [hwf.len]; omega)
    have h2 : ((List.range n).map
        (fun i => if out i = none then BatchStatus.completed else BatchStatus.failed))[j]?
        = none := List.getElem?_eq_none (by simp; omega)
    rw [h1, h2]

/-- Claim C8: for every schedule of settlement orders, a 5-item batch with
`stopOnError = false` whose items 2 and 4 (1-based) fail reports
`successful = 3`, `failed = 2`, `aborted = false`, and every item ends in a
terminal status (`completed` for items 1, 3, 5; `failed` for items 2, 4). -/
theorem batch_partial_failure_result : ∀ sched : List Nat,
    (batchResult 5 3 false out5 false sched).successful = 3 ∧
    (batchResult 5 3 false out5 false sched).failed = 2 ∧
    (batchResult 5 3 false out5 false sched).aborted = false ∧
    (batchResult 5 3 false out5 false sched).statuses
      = [.completed, .failed, .completed, .failed, .completed] := by
  intro sched
  have hinv0 := initBatch_inv 5 3 out5
  have hfuel : (initBatch 5).queue.length + (initBatch 5).active.length ≤ 5 := by
    simp [initBatch]
  obtain ⟨hq, ha, hab⟩ :=
    batchLoop_complete (by norm_num) 5 sched (initBatch 5) hinv0 rfl hfuel
  obtain ⟨hinvf, _⟩ := batchLoop_inv 5 sched (initBatch 5) hinv0
  have hstat := batch_final_statuses hinvf hq ha
  have hstat' : (batchLoop 3 false out5 5 sched (initBatch 5)).1.statuses
      = [.completed, .failed, .completed, .failed, .completed] := by
    rw [hstat]
    decide
  obtain ⟨hwf, hacc⟩ := hinvf
  have hcc := hacc.compCount
  have hfc := hacc.failCount
  rw [hstat'] at hcc hfc
  refine ⟨?_, ?_, ?_, ?_⟩ <;>
    simp only [batchResult, batchRun, Bool.false_eq_true, if_false]
  · rw [hcc]; decide
  · rw [hfc]; decide
  · exact hab
  · exact hstat'

/-- Claim C7: in every run of a 10-item batch with concurrency 3 — whatever
the per-item outcomes, the `stopOnError` flag, and the settlement schedule —
every state the orchestrator passes through has at most 3 items in
`"uploading"` status. -/
theorem batch_concurrency_bound :
    ∀ (so : Bool) (out : Nat → Option UploadError) (sched : List Nat)
      (st : BatchState),
      st ∈ batchStates 10 3 so out false sched → countUploading st ≤ 3 := by
  intro so out sched st hst
  simp only [batchStates, batchRun, Bool.false_eq_true, if_false] at hst
  rcases List.mem_cons.mp hst with rfl | hst
  · simp [countUploading, initBatch, List.countP_replicate]
  · have hloop : BatchInv 10 3 out (batchLoop 3 so out 10 sched (initBatch 10)).1 ∧
        ∀ s ∈ (batchLoop 3 so out 10 sched (initBatch 10)).2, BatchInv 10 3 out s :=
      batchLoop_inv 10 sched (initBatch 10) (initBatch_inv 10 3 out)
    obtain ⟨hwf, _⟩ := hloop.2 st hst
    calc countUploading st = st.active.length := hwf.countEq
      _ ≤ 3 := hwf.activeLe

/-- Witness for C7: the initial state of a concrete all-successful run. -/
theorem batch_concurrency_bound_witness :
    countUploading (initBatch 10) ≤ 3 :=
  batch_concurrency_bound false (fun _ => none) [] (initBatch 10) (by decide)

theorem qAdd_pending {st : QState}
    (h : st.items.all (fun it => it.status == .pending) = true) :
    (qAdd st).items.all (fun it => it.status == .pending) = true := by
  simp only [qAdd, List.all_append, Bool.and_eq_true]
  exact ⟨h, by simp⟩

theorem qStep_pending {qc : Nat} {st : QState} (op : QOp)
    (h : st.items.all (fun it => it.status == .pending) = true) :
    (qStep qc st op).items.all (fun it => it.status == .pending) = true := by
  cases op with
  | add => exact qAdd_pending h
  | addMany k =>
    simp only [qStep]
    induction k generalizing st with
    | zero => simpa using h
    | succ k ih =>
      rw [List.replicate_succ, List.foldl_cons]
      exact ih (qAdd_pending h)
  | start out sched =>
    simp only [qStep, qStart]
    split
    · exact h
    · split
      · exact h
      · exact h
  | waitForCompletion out sched =>
    simp only [qStep, qStart]
    split
    · exact h
    · split
      · exact h
      · exact h
  | abortOp => exact h
  | clear =>
    simp only [qStep, qClear]
    rw [List.all_eq_true] at h ⊢
    intro x hx
    exact h x (List.mem_of_mem_filter hx)

/-- Claim C10: whatever sequence of operations runs against an upload queue,
the queue's own items keep status `pending` forever — `start` hands
`batchUpload` fresh item records built from the queued options, never the
queue's items — so `getStatus()` always reports `uploading = 0`,
`completed = 0`, `failed = 0`, and `clear()` removes nothing. -/
theorem queue_items_stay_pending :
    ∀ (qc : Nat) (ops : List QOp),
      ((qRun qc ops).items.all (fun it => it.status == .pending)) = true ∧
      (getStatusM (qRun qc ops)).uploading = 0 ∧
      (getStatusM (qRun qc ops)).completed = 0 ∧
      (getStatusM (qRun qc ops)).failed = 0 ∧
      (qStep qc (qRun qc ops) .clear).items = (qRun qc ops).items := by
  intro qc ops
  have key : ∀ (l : List QOp) (st : QState),
      st.items.all (fun it => it.status == .pending) = true →
      (l.foldl (qStep qc) st).items.all (fun it => it.status == .pending) = true := by
    intro l
    induction l with
    | nil => intro st h; exact h
    | cons op rest ih =>
      intro st h
      rw [List.foldl_cons]
      exact ih _ (qStep_pending op h)
  have hall : (qRun qc ops).items.all (fun it => it.status == .pending) = true :=
    key ops qInit rfl
  have hstat : ∀ it ∈ (qRun qc ops).items, it.status = BatchStatus.pending := by
    intro it hit
    simpa using List.all_eq_true.mp hall it hit
  refine ⟨hall, ?_, ?_, ?_, ?_⟩
  · simp only [getStatusM, List.length_eq_zero]
    rw [List.filter_eq_nil_iff]
    intro it hit
    simp [hstat it hit]
  · simp only [getStatusM, List.length_eq_zero]
    rw [List.filter_eq_nil_iff]
    intro it hit
    simp [hstat it hit]
  · simp only [getStatusM, List.length_eq_zero]
    rw [List.filter_eq_nil_iff]
    intro it hit
    simp [hstat it hit]
  · simp only [qStep, qClear]
    rw [List.filter_eq_self]
    intro it hit
    simp [hstat it hit]
